import Mathlib

/-
Verification of the layered raster drawing engine of StickerStudio
(CanvasBoard in src/unnamed/part_000, compositing also in
src/services/export.ts) against its natural-language specification.

The engine is embedded shallowly:
* an ImageData buffer is a function from pixel coordinates to an RGBA sample
  (channels are the 0..255 integers of the Uint8ClampedArray);
* the component state relevant to history (per-layer buffers, the undo and
  redo stacks, and the booleans last reported through onHistoryChange) is an
  explicit EditorState record, and each mutating operation of the source is a
  function on it;
* canvas rasterization primitives that cannot be modelled pixel-exactly
  (stroking a path, drawing a scaled image, filling text glyphs) are
  abstracted as functions on the layer buffer; all history, flood-fill,
  stabilization and compositing logic is translated directly from the source.
-/

namespace StickerStudio

/-- One RGBA pixel sample; each channel is an integer 0..255 as stored in the
ImageData Uint8ClampedArray of the source. -/
structure RGBA where
  r : ℕ
  g : ℕ
  b : ℕ
  a : ℕ
deriving DecidableEq

/-- A layer pixel buffer (the source ImageData of a width times height
canvas): pixel coordinates to RGBA. Only in-bounds coordinates are ever read
or written by the translated operations. -/
abbrev Buffer : Type := ℕ × ℕ → RGBA

/-- The fully transparent sample a cleared canvas holds. -/
def transparent : RGBA := ⟨0, 0, 0, 0⟩

/-- Hex digit test of the source regex character class in hexToRgb
(part_000 line 34), with the case-insensitive flag: 0-9, a-f, A-F. -/
def isHexDigitCh (c : Char) : Bool :=
  (decide (48 ≤ c.toNat) && decide (c.toNat ≤ 57)) ||
  (decide (97 ≤ c.toNat) && decide (c.toNat ≤ 102)) ||
  (decide (65 ≤ c.toNat) && decide (c.toNat ≤ 70))

/-- Numeric value of one hex digit, as parseInt(base 16) uses it. -/
def hexVal (c : Char) : ℕ :=
  if 48 ≤ c.toNat ∧ c.toNat ≤ 57 then c.toNat - 48
  else if 97 ≤ c.toNat ∧ c.toNat ≤ 102 then c.toNat - 87
  else if 65 ≤ c.toNat ∧ c.toNat ≤ 70 then c.toNat - 55
  else 0

/-- Translation of hexToRgb (part_000 lines 33-36): the regex accepts an
optional leading hash sign followed by exactly six hex digits; on a match the
three channel pairs are parsed base 16, otherwise the result is r=g=b=0. -/
def hexToRgb (s : String) : ℕ × ℕ × ℕ :=
  match (if s.data.head? = some '#' then s.data.tail else s.data) with
  | [c1, c2, c3, c4, c5, c6] =>
    if isHexDigitCh c1 && isHexDigitCh c2 && isHexDigitCh c3 &&
        isHexDigitCh c4 && isHexDigitCh c5 && isHexDigitCh c6 then
      (16 * hexVal c1 + hexVal c2, 16 * hexVal c3 + hexVal c4,
        16 * hexVal c5 + hexVal c6)
    else (0, 0, 0)
  | _ => (0, 0, 0)

/-- The RGBA actually written by floodFill: r, g, b from hexToRgb of the fill
color and a = Math.floor(opacity * 255) (part_000 lines 213-214). -/
def fillRGBA (color : String) (opacity : ℚ) : RGBA :=
  ⟨(hexToRgb color).1, (hexToRgb color).2.1, (hexToRgb color).2.2,
    (⌊opacity * 255⌋).toNat⟩

/-- FILL_TOLERANCE constant (part_000 line 31). -/
def FILL_TOLERANCE : ℕ := 40

/-- Channel-wise closeness used in the flood fill scan (part_000 line 229):
the absolute difference of two channel values is at most the tolerance. -/
def chDiffLe (u v t : ℕ) : Bool := decide (((u : ℤ) - v).natAbs ≤ t)

/-- The flood fill inclusion test of part_000 line 229: every one of the four
channels of the candidate pixel is within FILL_TOLERANCE of the corresponding
captured seed channel. -/
def matchTol (c s : RGBA) : Bool :=
  chDiffLe c.r s.r FILL_TOLERANCE && chDiffLe c.g s.g FILL_TOLERANCE &&
  chDiffLe c.b s.b FILL_TOLERANCE && chDiffLe c.a s.a FILL_TOLERANCE

/-- The early-return test of floodFill (part_000 line 218): every channel of
the seed pixel differs from the fill RGBA by strictly less than 1, which on
integer channel values is exact equality. -/
def seedMatchesFill (pix f : RGBA) : Prop :=
  ((pix.r : ℤ) - f.r).natAbs < 1 ∧ ((pix.g : ℤ) - f.g).natAbs < 1 ∧
  ((pix.b : ℤ) - f.b).natAbs < 1 ∧ ((pix.a : ℤ) - f.a).natAbs < 1

instance (pix f : RGBA) : Decidable (seedMatchesFill pix f) := by
  unfold seedMatchesFill; infer_instance

/-- Bounds test on the signed coordinates popped from the flood fill stack
(part_000 line 224, negated: the continue fires outside these bounds). -/
def inBoundsZ (w h : ℕ) (q : ℤ × ℤ) : Prop :=
  0 ≤ q.1 ∧ q.1 < (w : ℤ) ∧ 0 ≤ q.2 ∧ q.2 < (h : ℤ)

instance (w h : ℕ) (q : ℤ × ℤ) : Decidable (inBoundsZ w h q) := by
  unfold inBoundsZ; infer_instance

/-- Bounds test on unsigned pixel coordinates. -/
def inBounds (w h : ℕ) (p : ℕ × ℕ) : Prop := p.1 < w ∧ p.2 < h

instance (w h : ℕ) (p : ℕ × ℕ) : Decidable (inBounds w h p) := by
  unfold inBounds; infer_instance

/-- Conversion of a signed stack entry to the pixel it denotes, defined once
it has passed the bounds test. -/
def toPix (q : ℤ × ℤ) : ℕ × ℕ := (q.1.toNat, q.2.toNat)

/-- The while loop of floodFill (part_000 lines 222-233), with a structural
fuel argument standing in for the unbounded JS loop; floodFill supplies more
fuel than the loop can consume, which fillLoop_inv proves sufficient. The
list head is the stack top (JS push and pop act on the array end), so one
iteration pops the head; out-of-bounds or already visited entries are
dropped, and a pixel whose current value is within FILL_TOLERANCE of the
captured seed channels is overwritten with the fill RGBA and its four
neighbours are pushed in the order of line 231. -/
def fillLoop (w h : ℕ) (seed fl : RGBA) :
    ℕ → List (ℤ × ℤ) → Finset (ℕ × ℕ) → Buffer → Buffer × Finset (ℕ × ℕ)
  | 0, _, vis, data => (data, vis)
  | fuel + 1, stack, vis, data =>
    match stack with
    | [] => (data, vis)
    | (cx, cy) :: rest =>
      if cx < 0 ∨ (w : ℤ) ≤ cx ∨ cy < 0 ∨ (h : ℤ) ≤ cy then
        fillLoop w h seed fl fuel rest vis data
      else if (cx.toNat, cy.toNat) ∈ vis then
        fillLoop w h seed fl fuel rest vis data
      else if matchTol (data (cx.toNat, cy.toNat)) seed then
        fillLoop w h seed fl fuel
          ((cx, cy - 1) :: (cx, cy + 1) :: (cx - 1, cy) :: (cx + 1, cy) :: rest)
          (insert (cx.toNat, cy.toNat) vis)
          (Function.update data (cx.toNat, cy.toNat) fl)
      else
        fillLoop w h seed fl fuel rest (insert (cx.toNat, cy.toNat) vis) data

/-- The early-return condition of floodFill read off the flat array
(part_000 lines 215-218): startIdx = (y*width + x)*4 indexes the flat
Uint8ClampedArray, so the four channel reads are defined exactly when the
linear index y*width + x lies in [0, width*height); the pixel they return is
the one at that flat position — the seed pixel itself when (x, y) is in
bounds, a wrapped pixel otherwise. When the linear index is out of range all
four reads give undefined and every NaN comparison of line 218 is false. The
early return therefore fires when the linear index is in range and the pixel
at that flat position equals the fill RGBA exactly (the strictly-less-than-1
comparison on integer channels). -/
def earlyReturn (w h : ℕ) (data : Buffer) (x y : ℤ) (f : RGBA) : Prop :=
  (0 ≤ y * (w : ℤ) + x ∧ y * (w : ℤ) + x < (w : ℤ) * (h : ℤ)) ∧
  seedMatchesFill
    (data ((y * (w : ℤ) + x).toNat % w, (y * (w : ℤ) + x).toNat / w)) f

instance (w h : ℕ) (data : Buffer) (x y : ℤ) (f : RGBA) :
    Decidable (earlyReturn w h data x y f) := by
  unfold earlyReturn
  infer_instance

/-- Translation of floodFill (part_000 lines 207-236) on the active layer
buffer. The result is none exactly when the early return of line 218 fires
(the JS function returns undefined there, which the caller treats as falsy);
otherwise it is the buffer that putImageData writes back. The seed
coordinates are floored, and the captured channels sr, sg, sb, sa handed to
the loop are the flat-array read described at earlyReturn: for an in-bounds
seed this is the seed pixel itself; for an out-of-bounds seed whose linear
index is still in range it is the wrapped pixel, exactly as in the source;
and when the linear index is out of range the source captures NaN while this
model passes an arbitrary pixel value — harmless either way, because the
loop then pops its single out-of-bounds entry at the bounds check of line
224 and never consults the captured channels. -/
def floodFill (w h : ℕ) (data : Buffer) (startX startY : ℚ)
    (fillColor : String) (opacity : ℚ) : Option Buffer :=
  let x : ℤ := ⌊startX⌋
  let y : ℤ := ⌊startY⌋
  let f := fillRGBA fillColor opacity
  if earlyReturn w h data x y f then
    none
  else
    some (fillLoop w h
      (data ((y * (w : ℤ) + x).toNat % w, (y * (w : ℤ) + x).toNat / w)) f
      (5 * w * h + 1) [(x, y)] ∅ data).1

/-- One recorded history step (part_000 lines 18-22): the layer it applies to
and full before and after snapshots of that layer buffer. -/
structure HistoryStep where
  layerId : ℕ
  before : Buffer
  after : Buffer

/-- The CanvasBoard state the history claims are about: the per-layer pixel
buffers, the two history stacks (part_000 lines 49-50), and the booleans most
recently reported through onHistoryChange. -/
structure EditorState where
  width : ℕ
  height : ℕ
  buffers : ℕ → Buffer
  undoStack : List HistoryStep
  redoStack : List HistoryStep
  canUndo : Bool
  canRedo : Bool

/-- The stroke commit of stopDraw (part_000 lines 289-299): the before
snapshot was captured by startDraw (line 243), the drawing performed between
the snapshots is abstracted as the function f on the layer buffer, and the
push is followed by onHistoryChange(true, false). bakeText (lines 301-328)
and drawImageOnLayer (lines 137-148) push and report identically, with a
different raster function. The source leaves the redo stack untouched here. -/
def strokeCommit (s : EditorState) (l : ℕ) (f : Buffer → Buffer) : EditorState :=
  { s with
    buffers := Function.update s.buffers l (f (s.buffers l)),
    undoStack := ⟨l, s.buffers l, f (s.buffers l)⟩ :: s.undoStack,
    canUndo := true,
    canRedo := false }

/-- undo (part_000 lines 97-105): pop the undo stack; if a step was present,
push it on the redo stack, write its before snapshot into its layer, and
report the two stack lengths. -/
def undo (s : EditorState) : EditorState :=
  match s.undoStack with
  | [] => s
  | step :: rest =>
    { s with
      buffers := Function.update s.buffers step.layerId step.before,
      undoStack := rest,
      redoStack := step :: s.redoStack,
      canUndo := decide (0 < rest.length),
      canRedo := decide (0 < (step :: s.redoStack).length) }

/-- redo (part_000 lines 106-114): pop the redo stack; if a step was present,
push it back on the undo stack, write its after snapshot into its layer, and
report the two stack lengths. -/
def redo (s : EditorState) : EditorState :=
  match s.redoStack with
  | [] => s
  | step :: rest =>
    { s with
      buffers := Function.update s.buffers step.layerId step.after,
      undoStack := step :: s.undoStack,
      redoStack := rest,
      canUndo := decide (0 < (step :: s.undoStack).length),
      canRedo := decide (0 < rest.length) }

/-- clearLayer (part_000 lines 115-124): snapshot, clearRect (every sample
fully transparent), push the step, and report the two stack lengths. -/
def clearLayer (s : EditorState) (l : ℕ) : EditorState :=
  { s with
    buffers := Function.update s.buffers l (fun _ => transparent),
    undoStack := ⟨l, s.buffers l, fun _ => transparent⟩ :: s.undoStack,
    canUndo := decide (0 < (⟨l, s.buffers l, fun _ => transparent⟩ ::
      s.undoStack : List HistoryStep).length),
    canRedo := decide (0 < s.redoStack.length) }

/-- The fill branch of startDraw (part_000 lines 238-251): capture the before
snapshot, run floodFill; when it returns a buffer, push the HistoryStep and
report onHistoryChange(true, false); when the early return fired nothing at
all happens. -/
def fillClick (s : EditorState) (l : ℕ) (startX startY : ℚ)
    (color : String) (opacity : ℚ) : EditorState :=
  match floodFill s.width s.height (s.buffers l) startX startY color opacity with
  | none => s
  | some after =>
    { s with
      buffers := Function.update s.buffers l after,
      undoStack := ⟨l, s.buffers l, after⟩ :: s.undoStack,
      canUndo := true,
      canRedo := false }

/-- Layer metadata (types.ts lines 1-6), with the id as a numeric key. -/
structure Layer where
  id : ℕ
  name : String
  visible : Bool
  opacity : ℚ
deriving DecidableEq

/-- The compositing loop shared by getPreview (part_000 lines 150-164),
exportImage (lines 125-135), the thumbnail of performSave (lines 72-85) and
compositeSticker (services/export.ts lines 20-46): iterate the layer list in
ascending order, skip layers not marked visible, and draw each visible layer
buffer into the accumulator image with globalAlpha set to the layer opacity.
The source-over canvas rasterization is abstracted as the draw parameter. -/
def flatten {Image : Type} (draw : Image → Buffer → ℚ → Image)
    (bufs : ℕ → Buffer) (init : Image) (layers : List Layer) : Image :=
  layers.foldl (fun acc l => if l.visible then draw acc (bufs l.id) l.opacity else acc) init

/-- One stabilized pointer sample (part_000 lines 24-29). -/
structure Point where
  x : ℚ
  y : ℚ
  pressure : ℚ
  time : ℤ

/-- The JS expression e.pressure || 0.5 (part_000 lines 253 and 284): a zero
raw pressure is falsy and is replaced by 0.5. -/
def effPressure (raw : ℚ) : ℚ := if raw = 0 then 1 / 2 else raw

/-- onMove during an active stroke (part_000 lines 274-287): with
stabilization s positive the target point is moved from the previous stable
point toward the raw point by the factor 1 - s * 0.08, otherwise the raw
point is used; the result pairs the new stable point with the segment that
drawPoint renders, from the previous stable point to the new one. -/
def onMove (stab : ℚ) (last : Point) (rawX rawY rawPressure : ℚ) (now : ℤ) :
    Point × (Point × Point) :=
  let t : ℚ × ℚ :=
    if 0 < stab then
      (last.x + (rawX - last.x) * (1 - stab * (8 / 100)),
        last.y + (rawY - last.y) * (1 - stab * (8 / 100)))
    else (rawX, rawY)
  let p : Point := ⟨t.1, t.2, effPressure rawPressure, now⟩
  (p, (last, p))

/-- Drawing tool (types.ts line 50). -/
inductive Tool
  | brush
  | eraser
  | fill
  | text
deriving DecidableEq

/-- Brush type (types.ts line 30). -/
inductive BrushType
  | pen
  | marker
  | airbrush
  | pencil
  | crayon
  | watercolor
  | calligraphy
deriving DecidableEq

/-- ctx.lineWidth chosen by drawPoint (part_000 lines 257-272) for a segment
ending at a point carrying the given pressure: the eraser always uses the
nominal size; otherwise the calligraphy brush scales the size by
0.4 + pressure * 1.6 and every other brush type uses the nominal size. -/
def lineWidthFor (tool : Tool) (bt : BrushType) (size endPressure : ℚ) : ℚ :=
  if tool = Tool.eraser then size
  else if bt = BrushType.calligraphy then size * (2 / 5 + endPressure * (8 / 5))
  else size

/-- Width of a rendered segment as a function of the raw pointer pressure:
the points handed to drawPoint carry effPressure of the raw value (part_000
lines 253 and 284). -/
def segWidth (tool : Tool) (bt : BrushType) (size rawPressure : ℚ) : ℚ :=
  lineWidthFor tool bt size (effPressure rawPressure)

/-- Spec-side description of a well-formed fill color, following the words of
claim C9: an optional leading hash sign followed by exactly six
case-insensitive hex digits. -/
def SixHexColor (s : String) : Prop :=
  ∃ core : List Char, (s.data = core ∨ s.data = '#' :: core) ∧
    core.length = 6 ∧ ∀ c ∈ core, isHexDigitCh c = true

/-- A constant gray test pixel. -/
def pix (n : ℕ) : RGBA := ⟨n, n, n, 255⟩

/-- A constant buffer. -/
def constBuf (c : RGBA) : Buffer := fun _ => c

/-- A fresh editor state on a 2 by 2 sticker: empty history and transparent
layer buffers, as after the sticker load of part_000 lines 167-200. -/
def st0 : EditorState :=
  ⟨2, 2, fun _ => constBuf transparent, [], [], false, false⟩

/-- First stroke: paints layer 0 with pix 1. -/
def st1 : EditorState := strokeCommit st0 0 (fun _ => constBuf (pix 1))

/-- Undo of the first stroke. -/
def st2 : EditorState := undo st1

/-- Second stroke, painting layer 0 with pix 2, committed while the redo
stack still holds the undone first stroke. -/
def st3 : EditorState := strokeCommit st2 0 (fun _ => constBuf (pix 2))

/-- Redo issued after the second stroke: the source pops the stale step. -/
def st4 : EditorState := redo st3

/-- Undo issued after that redo, popping the stale step again. -/
def st5 : EditorState := undo st4

/-- C1: the claim states that committing a new mutating operation after one
or more undos clears the redo stack, making an immediately following redo a
no-op on every layer buffer. The code violates this: after stroke, undo,
stroke, the redo stack still holds the undone first step and redo repaints
its after snapshot, changing layer 0 from pix 2 back to pix 1, even though
stopDraw had just reported canRedo as false. -/
theorem C1_redo_not_cleared :
    st3.redoStack.length = 1 ∧ st3.buffers 0 (0, 0) = pix 2 ∧
    (redo st3).buffers 0 (0, 0) = pix 1 ∧ pix 1 ≠ pix 2 :=
  ⟨rfl, rfl, rfl, by decide⟩

/-- C2: the claim states in particular that N undos followed by N redos with
no intervening operation return every layer buffer to its pre-undo state.
Because commits never clear the redo stack, the reachable state st5 (stroke,
undo, stroke, redo, undo) refutes it at N = 1: its layer 0 buffer is
transparent and its undo stack has one step, yet one undo followed by one
redo leaves layer 0 at pix 2. The single-step restore clauses of the claim
are exactly the source undo and redo translated above; only the round trip
fails, through the uncleared redo stack. -/
theorem C2_undo_redo_roundtrip_fails :
    st5.undoStack.length = 1 ∧ st5.buffers 0 (0, 0) = transparent ∧
    (redo (undo st5)).buffers 0 (0, 0) = pix 2 ∧ pix 2 ≠ transparent :=
  ⟨rfl, rfl, rfl, by decide⟩

/-- C4: the claim states that after every push or pop the reported booleans
equal the non-emptiness of the two stacks. After the second stroke of the
trace, stopDraw reports canRedo as false while the redo stack still holds
one step, refuting the claim for the commit path (undo, redo and clearLayer
do report the actual lengths). -/
theorem C4_canRedo_misreported :
    st3.canRedo = false ∧ st3.redoStack.length = 1 :=
  ⟨rfl, rfl⟩

/-- C3 counterexample: at raw pointer pressure 0 the calligraphy width is
1.2 times the size, not the 0.4 times the size the claim derives from the
formula with raw pressure, because the source substitutes 0.5 for the falsy
zero pressure. -/
theorem segWidth_calligraphy_eq (size raw : ℚ) :
    segWidth Tool.brush BrushType.calligraphy size raw =
      size * (2 / 5 + effPressure raw * (8 / 5)) := by
  unfold segWidth lineWidthFor
  rw [if_neg (by decide : ¬ (Tool.brush = Tool.eraser)), if_pos rfl]

theorem C3_counterexample :
    segWidth Tool.brush BrushType.calligraphy 10 0 = 12 ∧
    (10 : ℚ) * (2 / 5 + 0 * (8 / 5)) = 4 ∧ (12 : ℚ) ≠ 4 := by
  refine ⟨?_, by norm_num, by norm_num⟩
  rw [segWidth_calligraphy_eq]
  unfold effPressure
  norm_num

/-- C3 amended: for a brush stroke with the calligraphy brush type the
rendered width is size times (0.4 + p times 1.6) where p is the raw pointer
pressure when that is nonzero and 0.5 when the raw pressure is 0 (the JS
expression e.pressure or-else 0.5); in particular the width is 2.0 times
size at pressure 1.0 but 1.2 times size, not 0.4 times size, at raw
pressure 0. -/
theorem C3_calligraphy_width (size raw : ℚ) (hraw : raw ≠ 0) :
    segWidth Tool.brush BrushType.calligraphy size raw =
      size * (2 / 5 + raw * (8 / 5)) ∧
    segWidth Tool.brush BrushType.calligraphy size 1 = size * 2 ∧
    segWidth Tool.brush BrushType.calligraphy size 0 = size * (6 / 5) := by
  refine ⟨?_, ?_, ?_⟩ <;> rw [segWidth_calligraphy_eq] <;> unfold effPressure
  · rw [if_neg hraw]
  · norm_num
  · norm_num

/-- Witness for C3_calligraphy_width at size 10 and raw pressure one half. -/
theorem C3_witness :
    (1 / 2 : ℚ) ≠ 0 ∧
    (segWidth Tool.brush BrushType.calligraphy 10 (1 / 2) =
        10 * (2 / 5 + (1 / 2) * (8 / 5)) ∧
      segWidth Tool.brush BrushType.calligraphy 10 1 = 10 * 2 ∧
      segWidth Tool.brush BrushType.calligraphy 10 0 = 10 * (6 / 5)) :=
  ⟨by norm_num, C3_calligraphy_width 10 (1 / 2) (by norm_num)⟩

/-- C8: on each pointer move sample of an active stroke, with stabilization
s positive the new stabilized point is previous plus (raw minus previous)
times (1 - s times 0.08) in each coordinate, with s = 0 the raw point is
used directly, the rendered segment runs from the previous stabilized point
to the new one, and s = 10 gives the damping factor 0.2. -/
theorem C8_stabilized_move (stab : ℚ) (last : Point) (rawX rawY rawP : ℚ)
    (now : ℤ) :
    (onMove stab last rawX rawY rawP now).1.x =
      (if 0 < stab then last.x + (rawX - last.x) * (1 - stab * (8 / 100))
        else rawX) ∧
    (onMove stab last rawX rawY rawP now).1.y =
      (if 0 < stab then last.y + (rawY - last.y) * (1 - stab * (8 / 100))
        else rawY) ∧
    (onMove stab last rawX rawY rawP now).2 =
      (last, (onMove stab last rawX rawY rawP now).1) ∧
    (1 : ℚ) - 10 * (8 / 100) = 1 / 5 := by
  unfold onMove
  by_cases hs : 0 < stab <;> simp [hs] <;> norm_num

/-- The compositing loop only consults the sublist of visible layers: it
equals a fold over the filtered list. -/
theorem flatten_eq_filter {Image : Type} (draw : Image → Buffer → ℚ → Image)
    (bufs : ℕ → Buffer) (init : Image) (layers : List Layer) :
    flatten draw bufs init layers =
      (layers.filter (fun l => l.visible)).foldl
        (fun acc l => draw acc (bufs l.id) l.opacity) init := by
  induction layers generalizing init with
  | nil => rfl
  | cons l ls ih =>
    cases hv : l.visible with
    | true =>
      rw [List.filter_cons_of_pos (by simpa using hv)]
      simp only [flatten, List.foldl_cons, hv, if_true]
      exact ih _
    | false =>
      rw [List.filter_cons_of_neg (by simp [hv])]
      simp only [flatten, List.foldl_cons, hv, if_false]
      exact ih _

/-- The fold over the visible layers depends on the buffer map only at the
ids of those layers. -/
theorem foldl_draw_congr {Image : Type} (draw : Image → Buffer → ℚ → Image)
    (bufs1 bufs2 : ℕ → Buffer) :
    ∀ (ls : List Layer) (init : Image), (∀ l ∈ ls, bufs1 l.id = bufs2 l.id) →
      ls.foldl (fun acc l => draw acc (bufs1 l.id) l.opacity) init =
        ls.foldl (fun acc l => draw acc (bufs2 l.id) l.opacity) init := by
  intro ls
  induction ls with
  | nil => intro init _; rfl
  | cons l t ih =>
    intro init hag
    simp only [List.foldl_cons]
    rw [hag l (by simp)]
    exact ih _ (fun x hx => hag x (by simp [hx]))

/-- C7: the compositor iterates layers in ascending order drawing exactly
the layers marked visible at their configured opacity (the fold over the
filtered list), so its output is unchanged when the layers marked invisible
are reordered, removed, or have their buffers changed: any two layer lists
with the same visible sublist, over buffer maps agreeing on the visible
ids, flatten to the same image. -/
theorem C7_compositor_invisible_invariant {Image : Type}
    (draw : Image → Buffer → ℚ → Image) (init : Image)
    (bufs1 bufs2 : ℕ → Buffer) (layers1 layers2 : List Layer)
    (hfilter : layers1.filter (fun l => l.visible) =
      layers2.filter (fun l => l.visible))
    (hbufs : ∀ l ∈ layers1.filter (fun l => l.visible),
      bufs1 l.id = bufs2 l.id) :
    flatten draw bufs1 init layers1 =
      (layers1.filter (fun l => l.visible)).foldl
        (fun acc l => draw acc (bufs1 l.id) l.opacity) init ∧
    flatten draw bufs1 init layers1 = flatten draw bufs2 init layers2 := by
  refine ⟨flatten_eq_filter draw bufs1 init layers1, ?_⟩
  rw [flatten_eq_filter draw bufs1 init layers1,
    flatten_eq_filter draw bufs2 init layers2, ← hfilter]
  exact foldl_draw_congr draw bufs1 bufs2 _ init hbufs

/-- Witness for C7 on concrete lists: an invisible layer is dropped, another
invisible layer with a different buffer is prepended, and the buffer of the
invisible id changes; the composite is unchanged. -/
theorem C7_witness :
    ([⟨0, "a", true, 1⟩, ⟨1, "b", false, 1⟩] : List Layer).filter
        (fun l => l.visible) =
      ([⟨2, "c", false, 0⟩, ⟨0, "a", true, 1⟩] : List Layer).filter
        (fun l => l.visible) ∧
    (∀ l ∈ ([⟨0, "a", true, 1⟩, ⟨1, "b", false, 1⟩] : List Layer).filter
        (fun l => l.visible),
      (fun i => if i = 0 then constBuf (pix 5) else constBuf (pix 7)) l.id =
        (fun i => if i = 0 then constBuf (pix 5) else constBuf (pix 9)) l.id) ∧
    flatten (fun acc b o => acc + (b (0, 0)).r + (b (0, 0)).a + o)
        (fun i => if i = 0 then constBuf (pix 5) else constBuf (pix 7)) (0 : ℚ)
        [⟨0, "a", true, 1⟩, ⟨1, "b", false, 1⟩] =
      flatten (fun acc b o => acc + (b (0, 0)).r + (b (0, 0)).a + o)
        (fun i => if i = 0 then constBuf (pix 5) else constBuf (pix 9)) (0 : ℚ)
        [⟨2, "c", false, 0⟩, ⟨0, "a", true, 1⟩] := by
  have h1 : ([⟨0, "a", true, 1⟩, ⟨1, "b", false, 1⟩] : List Layer).filter
      (fun l => l.visible) =
      ([⟨2, "c", false, 0⟩, ⟨0, "a", true, 1⟩] : List Layer).filter
      (fun l => l.visible) := rfl
  have h2 : ∀ l ∈ ([⟨0, "a", true, 1⟩, ⟨1, "b", false, 1⟩] : List Layer).filter
      (fun l => l.visible),
      (fun i => if i = 0 then constBuf (pix 5) else constBuf (pix 7)) l.id =
        (fun i => if i = 0 then constBuf (pix 5) else constBuf (pix 9)) l.id := by
    intro l hl
    have : l = ⟨0, "a", true, 1⟩ := by
      simpa using hl
    rw [this]
    rfl
  exact ⟨h1, h2,
    (C7_compositor_invisible_invariant
      (fun acc b o => acc + (b (0, 0)).r + (b (0, 0)).a + o) (0 : ℚ)
      (fun i => if i = 0 then constBuf (pix 5) else constBuf (pix 7))
      (fun i => if i = 0 then constBuf (pix 5) else constBuf (pix 9))
      [⟨0, "a", true, 1⟩, ⟨1, "b", false, 1⟩]
      [⟨2, "c", false, 0⟩, ⟨0, "a", true, 1⟩] h1 h2).2⟩

/-- C9: a fill color string that is not an optional hash sign followed by
six hex digits resolves to r = g = b = 0, so a flood fill with a malformed
color string proceeds with opaque-channel black at the requested opacity
instead of failing. -/
theorem C9_malformed_color_black (s : String) (h : ¬ SixHexColor s) :
    hexToRgb s = (0, 0, 0) ∧
      ∀ op : ℚ, fillRGBA s op = ⟨0, 0, 0, (⌊op * 255⌋).toNat⟩ := by
  have hmain : hexToRgb s = (0, 0, 0) := by
    unfold hexToRgb
    split
    next c1 c2 c3 c4 c5 c6 heq =>
      split
      next hhex =>
        exfalso
        apply h
        refine ⟨[c1, c2, c3, c4, c5, c6], ?_, rfl, ?_⟩
        · by_cases hh : s.data.head? = some '#'
          · right
            rw [if_pos hh] at heq
            cases hd : s.data with
            | nil => rw [hd] at hh; exact absurd hh (by simp)
            | cons a t =>
              rw [hd] at hh heq
              simp only [List.head?_cons, Option.some.injEq] at hh
              simp only [List.tail_cons] at heq
              rw [hh, heq]
          · left
            rw [if_neg hh] at heq
            exact heq
        · intro c hc
          simp only [Bool.and_eq_true] at hhex
          obtain ⟨⟨⟨⟨⟨h1, h2⟩, h3⟩, h4⟩, h5⟩, h6⟩ := hhex
          simp only [List.mem_cons, List.not_mem_nil, or_false] at hc
          rcases hc with rfl | rfl | rfl | rfl | rfl | rfl <;> assumption
      next => rfl
    next => rfl
  refine ⟨hmain, fun op => ?_⟩
  unfold fillRGBA
  rw [hmain]

/-- Witness for C9 at the malformed color string red. -/
theorem C9_witness :
    ¬ SixHexColor "red" ∧
    (hexToRgb "red" = (0, 0, 0) ∧
      ∀ op : ℚ, fillRGBA "red" op = ⟨0, 0, 0, (⌊op * 255⌋).toNat⟩) := by
  have h : ¬ SixHexColor "red" := by
    rintro ⟨core, hor | hor, hlen, -⟩
    · have hd : ("red").data = ['r', 'e', 'd'] := rfl
      rw [hd] at hor
      rw [← hor] at hlen
      exact absurd hlen (by decide)
    · have hd : ("red").data = ['r', 'e', 'd'] := rfl
      rw [hd] at hor
      injection hor with h1 h2
      exact absurd h1 (by decide)
  exact ⟨h, C9_malformed_color_black "red" h⟩

/-- Decomposing a flat pixel index: row times width plus column. -/
theorem flat_index_pix (w a b : ℕ) (hb : b < w) :
    ((a * w + b) % w, (a * w + b) / w) = (b, a) := by
  have hw : 0 < w := Nat.lt_of_le_of_lt (Nat.zero_le b) hb
  have h1 : (a * w + b) % w = b := by
    rw [Nat.mul_comm a w, Nat.mul_add_mod, Nat.mod_eq_of_lt hb]
  have h2 : (a * w + b) / w = a := by
    rw [Nat.mul_comm a w, Nat.mul_add_div hw, Nat.div_eq_of_lt hb,
      Nat.add_zero]
  rw [h1, h2]

/-- For an in-bounds seed the flat read of line 216 lands on the seed pixel
itself. -/
theorem flat_seed_eq (w h : ℕ) (x y : ℤ) (hin : inBoundsZ w h (x, y)) :
    ((y * (w : ℤ) + x).toNat % w, (y * (w : ℤ) + x).toNat / w) =
      (x.toNat, y.toNat) := by
  obtain ⟨h1, h2, h3, h4⟩ := hin
  obtain ⟨b, rfl⟩ : ∃ b : ℕ, x = (b : ℤ) :=
    ⟨x.toNat, (Int.toNat_of_nonneg h1).symm⟩
  obtain ⟨a, rfl⟩ : ∃ a : ℕ, y = (a : ℤ) :=
    ⟨y.toNat, (Int.toNat_of_nonneg h3).symm⟩
  have hbw : b < w := by omega
  have hcast : (a : ℤ) * (w : ℤ) + (b : ℤ) = ((a * w + b : ℕ) : ℤ) := by
    push_cast
    ring
  rw [hcast]
  simp only [Int.toNat_natCast]
  exact flat_index_pix w a b hbw

/-- For an in-bounds seed the flat linear index is inside the array. -/
theorem flat_idx_range (w h : ℕ) (x y : ℤ) (hin : inBoundsZ w h (x, y)) :
    0 ≤ y * (w : ℤ) + x ∧ y * (w : ℤ) + x < (w : ℤ) * (h : ℤ) := by
  obtain ⟨h1, h2, h3, h4⟩ := hin
  have hw0 : (0 : ℤ) ≤ (w : ℤ) := by positivity
  have hyw : 0 ≤ y * (w : ℤ) := mul_nonneg h3 hw0
  constructor
  · linarith
  · have h5 : y * (w : ℤ) ≤ ((h : ℤ) - 1) * (w : ℤ) :=
      mul_le_mul_of_nonneg_right (by omega) hw0
    have h6 : ((h : ℤ) - 1) * (w : ℤ) = (w : ℤ) * (h : ℤ) - (w : ℤ) := by
      ring
    linarith

/-- C5: a fill click whose in-bounds seed pixel already matches the fill
color and opacity within the effectively-zero tolerance of the early return
(strictly less than one per channel, hence exact equality on integers) is a
complete no-op: the editor state, and in particular every layer buffer, the
two stacks and the reported booleans, is unchanged and no HistoryStep is
pushed. -/
theorem C5_matching_fill_noop (s : EditorState) (l : ℕ) (sx sy : ℚ)
    (c : String) (op : ℚ)
    (hin : inBoundsZ s.width s.height (⌊sx⌋, ⌊sy⌋))
    (hmatch : seedMatchesFill
      (s.buffers l ((⌊sx⌋).toNat, (⌊sy⌋).toNat)) (fillRGBA c op)) :
    fillClick s l sx sy c op = s := by
  have her : earlyReturn s.width s.height (s.buffers l) ⌊sx⌋ ⌊sy⌋
      (fillRGBA c op) := by
    refine ⟨flat_idx_range s.width s.height ⌊sx⌋ ⌊sy⌋ hin, ?_⟩
    rw [flat_seed_eq s.width s.height ⌊sx⌋ ⌊sy⌋ hin]
    exact hmatch
  have hnone : floodFill s.width s.height (s.buffers l) sx sy c op = none := by
    simp only [floodFill]
    rw [if_pos her]
  unfold fillClick
  rw [hnone]

/-- A 1 by 1 state whose single layer is already opaque red. -/
def wRed : EditorState :=
  ⟨1, 1, fun _ => constBuf ⟨255, 0, 0, 255⟩, [], [], false, false⟩

/-- Witness for C5: clicking fill with ff0000 at opacity 1 on the already
red buffer changes nothing. -/
theorem C5_witness :
    inBoundsZ wRed.width wRed.height (⌊(0 : ℚ)⌋, ⌊(0 : ℚ)⌋) ∧
    seedMatchesFill
      (wRed.buffers 0 ((⌊(0 : ℚ)⌋).toNat, (⌊(0 : ℚ)⌋).toNat))
      (fillRGBA "#ff0000" 1) ∧
    fillClick wRed 0 0 0 "#ff0000" 1 = wRed := by
  have hfill : fillRGBA "#ff0000" 1 = ⟨255, 0, 0, 255⟩ := by
    have hx : hexToRgb "#ff0000" = (255, 0, 0) := rfl
    have hop : ((1 : ℚ) * 255) = ((255 : ℤ) : ℚ) := by norm_num
    unfold fillRGBA
    rw [hx, hop, Int.floor_intCast]
    rfl
  have h1 : inBoundsZ wRed.width wRed.height (⌊(0 : ℚ)⌋, ⌊(0 : ℚ)⌋) := by
    decide
  have h2 : seedMatchesFill
      (wRed.buffers 0 ((⌊(0 : ℚ)⌋).toNat, (⌊(0 : ℚ)⌋).toNat))
      (fillRGBA "#ff0000" 1) := by
    rw [hfill]
    decide
  exact ⟨h1, h2, C5_matching_fill_noop wRed 0 0 0 "#ff0000" 1 h1 h2⟩

/-- The loop on an empty stack returns the buffer and visited set as they
are, whatever the fuel. -/
theorem fillLoop_nil (w h : ℕ) (sv fl : RGBA) (fuel : ℕ)
    (vis : Finset (ℕ × ℕ)) (data : Buffer) :
    fillLoop w h sv fl fuel [] vis data = (data, vis) := by
  cases fuel <;> rfl

/-- The continue guard of line 224 is the negation of inBoundsZ. -/
theorem not_inBoundsZ_iff (w h : ℕ) (q : ℤ × ℤ) :
    (q.1 < 0 ∨ (w : ℤ) ≤ q.1 ∨ q.2 < 0 ∨ (h : ℤ) ≤ q.2) ↔
      ¬ inBoundsZ w h q := by
  unfold inBoundsZ
  omega

/-- A loop started on a single out-of-bounds entry drops it and stops. -/
theorem fillLoop_oob_start (w h : ℕ) (sv fl : RGBA) (fuel : ℕ) (x y : ℤ)
    (vis : Finset (ℕ × ℕ)) (data : Buffer)
    (hoob : ¬ inBoundsZ w h (x, y)) :
    fillLoop w h sv fl (fuel + 1) [(x, y)] vis data = (data, vis) := by
  simp only [fillLoop]
  rw [if_pos ((not_inBoundsZ_iff w h (x, y)).mpr hoob)]
  exact fillLoop_nil w h sv fl fuel vis data

/-- C10 amended: a fill click whose floored seed coordinates are out of
bounds never writes a pixel of any layer buffer; when the flat-array read of
line 216 does not trigger the early return (the linear index y*width+x is
outside the flat array, or the wrapped pixel it lands on differs from the
fill RGBA), a HistoryStep with equal before and after snapshots is pushed
and canUndo is reported true; when it does trigger (in-range linear index
whose wrapped pixel equals the fill RGBA exactly) the click is a complete
no-op and nothing at all is pushed. -/
theorem C10_oob_fill_pushes_degenerate_step (s : EditorState) (l : ℕ)
    (sx sy : ℚ) (c : String) (op : ℚ)
    (hoob : ¬ inBoundsZ s.width s.height (⌊sx⌋, ⌊sy⌋)) :
    (fillClick s l sx sy c op).buffers = s.buffers ∧
    (¬ earlyReturn s.width s.height (s.buffers l) ⌊sx⌋ ⌊sy⌋ (fillRGBA c op) →
      (fillClick s l sx sy c op).undoStack =
        (⟨l, s.buffers l, s.buffers l⟩ : HistoryStep) :: s.undoStack ∧
      (fillClick s l sx sy c op).canUndo = true) ∧
    (earlyReturn s.width s.height (s.buffers l) ⌊sx⌋ ⌊sy⌋ (fillRGBA c op) →
      fillClick s l sx sy c op = s) := by
  by_cases her : earlyReturn s.width s.height (s.buffers l) ⌊sx⌋ ⌊sy⌋
    (fillRGBA c op)
  · have hnone : floodFill s.width s.height (s.buffers l) sx sy c op =
        none := by
      simp only [floodFill]
      rw [if_pos her]
    have hclick : fillClick s l sx sy c op = s := by
      unfold fillClick
      rw [hnone]
    refine ⟨by rw [hclick], fun hc => absurd her hc, fun _ => hclick⟩
  · have hsome : floodFill s.width s.height (s.buffers l) sx sy c op =
        some (s.buffers l) := by
      simp only [floodFill]
      rw [if_neg her]
      rw [show 5 * s.width * s.height + 1 =
        (5 * s.width * s.height) + 1 from rfl]
      rw [fillLoop_oob_start _ _ _ _ _ _ _ _ _ hoob]
    unfold fillClick
    rw [hsome]
    refine ⟨?_, fun _ => ⟨rfl, rfl⟩, fun hc => absurd hc her⟩
    exact Function.update_eq_self l s.buffers

/-- A 2 by 2 editor state whose single layer is already opaque red. -/
def wRed22 : EditorState :=
  ⟨2, 2, fun _ => constBuf ⟨255, 0, 0, 255⟩, [], [], false, false⟩

/-- C10 counterexample to the claim as stated: a fill click at the
out-of-bounds seed (2, 0) on the all-red 2 by 2 layer computes the in-range
flat index 0*2+2 = 2, reads the wrapped pixel (0, 1), which equals the fill
RGBA ff0000 at opacity 1 exactly, and takes the early return: the state is
unchanged, so no HistoryStep is pushed and canUndo stays false, although
the claim promises a pushed degenerate step and canUndo true for every
out-of-bounds click. -/
theorem C10_counterexample :
    ¬ inBoundsZ wRed22.width wRed22.height (⌊(2 : ℚ)⌋, ⌊(0 : ℚ)⌋) ∧
    fillClick wRed22 0 2 0 "#ff0000" 1 = wRed22 ∧
    (fillClick wRed22 0 2 0 "#ff0000" 1).undoStack.length = 0 ∧
    (fillClick wRed22 0 2 0 "#ff0000" 1).canUndo = false := by
  have hfill : fillRGBA "#ff0000" 1 = ⟨255, 0, 0, 255⟩ := by
    have hx : hexToRgb "#ff0000" = (255, 0, 0) := rfl
    have hop : ((1 : ℚ) * 255) = ((255 : ℤ) : ℚ) := by norm_num
    unfold fillRGBA
    rw [hx, hop, Int.floor_intCast]
    rfl
  have hoob : ¬ inBoundsZ wRed22.width wRed22.height
      (⌊(2 : ℚ)⌋, ⌊(0 : ℚ)⌋) := by
    decide
  have her : earlyReturn 2 2 (wRed22.buffers 0) ⌊(2 : ℚ)⌋ ⌊(0 : ℚ)⌋
      (fillRGBA "#ff0000" 1) := by
    refine ⟨by decide, ?_⟩
    rw [hfill]
    decide
  have hnone : floodFill 2 2 (wRed22.buffers 0) 2 0 "#ff0000" 1 = none := by
    simp only [floodFill]
    rw [if_pos her]
  have hclick : fillClick wRed22 0 2 0 "#ff0000" 1 = wRed22 := by
    unfold fillClick
    rw [show floodFill wRed22.width wRed22.height (wRed22.buffers 0)
      2 0 "#ff0000" 1 = none from hnone]
  refine ⟨hoob, hclick, ?_, ?_⟩
  · rw [hclick]
    rfl
  · rw [hclick]
    rfl

/-- Four-adjacency of pixels on the unsigned grid. -/
def adjacent (p q : ℕ × ℕ) : Prop :=
  (q.1 = p.1 + 1 ∧ q.2 = p.2) ∨ (p.1 = q.1 + 1 ∧ q.2 = p.2) ∨
  (q.2 = p.2 + 1 ∧ q.1 = p.1) ∨ (p.2 = q.2 + 1 ∧ q.1 = p.1)

/-- The signed coordinates of the four neighbours of a pixel, as the flood
fill pushes them (part_000 line 231). -/
def nbrs (p : ℕ × ℕ) : List (ℤ × ℤ) :=
  [((p.1 : ℤ) + 1, (p.2 : ℤ)), ((p.1 : ℤ) - 1, (p.2 : ℤ)),
    ((p.1 : ℤ), (p.2 : ℤ) + 1), ((p.1 : ℤ), (p.2 : ℤ) - 1)]

/-- The 4-connected fill region of claim C6: pixels reachable from the seed
through in-bounds pixels whose original value is within FILL_TOLERANCE of
the seed value in every RGBA channel (the endpoints included). -/
inductive Reach (w h : ℕ) (orig : Buffer) (sv : RGBA) (s : ℕ × ℕ) :
    ℕ × ℕ → Prop
  | refl : inBounds w h s → matchTol (orig s) sv = true → Reach w h orig sv s s
  | step {p q : ℕ × ℕ} : Reach w h orig sv s p → adjacent p q →
      inBounds w h q → matchTol (orig q) sv = true → Reach w h orig sv s q

/-- The full pixel grid as a finite set, used to bound the visited set. -/
def grid (w h : ℕ) : Finset (ℕ × ℕ) := Finset.range w ×ˢ Finset.range h

theorem mem_grid (w h : ℕ) (p : ℕ × ℕ) : p ∈ grid w h ↔ inBounds w h p := by
  unfold grid inBounds
  simp [Finset.mem_product]

theorem inBounds_toPix {w h : ℕ} {q : ℤ × ℤ} (hq : inBoundsZ w h q) :
    inBounds w h (toPix q) := by
  unfold inBoundsZ at hq
  unfold inBounds toPix
  constructor <;> omega

/-- Every RGBA value matches itself within the tolerance. -/
theorem matchTol_self (c : RGBA) : matchTol c c = true := by
  unfold matchTol chDiffLe
  simp

theorem nbrs_toPix (cx cy : ℤ) (h1 : 0 ≤ cx) (h2 : 0 ≤ cy) :
    nbrs (cx.toNat, cy.toNat) =
      [(cx + 1, cy), (cx - 1, cy), (cx, cy + 1), (cx, cy - 1)] := by
  unfold nbrs
  rw [Int.toNat_of_nonneg h1, Int.toNat_of_nonneg h2]

/-- An adjacent in-bounds pixel is denoted by one of the four signed
neighbour entries. -/
theorem adjacent_nbrs (w h : ℕ) (p q : ℕ × ℕ) (hadj : adjacent p q)
    (hq : inBounds w h q) :
    ∃ qZ ∈ nbrs p, inBoundsZ w h qZ ∧ toPix qZ = q := by
  obtain ⟨hq1, hq2⟩ := hq
  rcases hadj with ⟨h1, h2⟩ | ⟨h1, h2⟩ | ⟨h1, h2⟩ | ⟨h1, h2⟩
  · refine ⟨((p.1 : ℤ) + 1, (p.2 : ℤ)), by unfold nbrs; simp, ?_, ?_⟩
    · unfold inBoundsZ
      refine ⟨by omega, by omega, by omega, by omega⟩
    · unfold toPix
      cases q
      simp only [Prod.mk.injEq]
      exact ⟨by omega, by omega⟩
  · refine ⟨((p.1 : ℤ) - 1, (p.2 : ℤ)), by unfold nbrs; simp, ?_, ?_⟩
    · unfold inBoundsZ
      refine ⟨by omega, by omega, by omega, by omega⟩
    · unfold toPix
      cases q
      simp only [Prod.mk.injEq]
      exact ⟨by omega, by omega⟩
  · refine ⟨((p.1 : ℤ), (p.2 : ℤ) + 1), by unfold nbrs; simp, ?_, ?_⟩
    · unfold inBoundsZ
      refine ⟨by omega, by omega, by omega, by omega⟩
    · unfold toPix
      cases q
      simp only [Prod.mk.injEq]
      exact ⟨by omega, by omega⟩
  · refine ⟨((p.1 : ℤ), (p.2 : ℤ) - 1), by unfold nbrs; simp, ?_, ?_⟩
    · unfold inBoundsZ
      refine ⟨by omega, by omega, by omega, by omega⟩
    · unfold toPix
      cases q
      simp only [Prod.mk.injEq]
      exact ⟨by omega, by omega⟩

/-- Invariant carried through the flood fill loop. orig is the pristine
buffer, sv the captured seed channels, fl the fill RGBA, sZ the floored
seed entry. It records: the visited set stays in bounds; the evolving data
is the original buffer with exactly the visited matching pixels overwritten
by the fill RGBA; every stack entry that is in bounds and matches is in the
region; every visited matching pixel is in the region; every neighbour of a
visited matching pixel is on the stack, out of bounds, or visited; and the
seed is on the stack or visited. -/
structure LoopInv (w h : ℕ) (orig : Buffer) (sv fl : RGBA) (sZ : ℤ × ℤ)
    (stack : List (ℤ × ℤ)) (vis : Finset (ℕ × ℕ)) (data : Buffer) : Prop where
  visBound : ∀ p ∈ vis, inBounds w h p
  dataEq : ∀ p, data p =
    if p ∈ vis ∧ matchTol (orig p) sv = true then fl else orig p
  stackSound : ∀ q ∈ stack, inBoundsZ w h q →
    matchTol (orig (toPix q)) sv = true →
    Reach w h orig sv (toPix sZ) (toPix q)
  visSound : ∀ p ∈ vis, matchTol (orig p) sv = true →
    Reach w h orig sv (toPix sZ) p
  frontier : ∀ p ∈ vis, matchTol (orig p) sv = true →
    ∀ q ∈ nbrs p, q ∈ stack ∨ ¬ inBoundsZ w h q ∨ toPix q ∈ vis
  seedIn : sZ ∈ stack ∨ toPix sZ ∈ vis

theorem fillLoop_cons_oob (w h : ℕ) (sv fl : RGBA) (fuel : ℕ) (cx cy : ℤ)
    (rest : List (ℤ × ℤ)) (vis : Finset (ℕ × ℕ)) (data : Buffer)
    (hb : cx < 0 ∨ (w : ℤ) ≤ cx ∨ cy < 0 ∨ (h : ℤ) ≤ cy) :
    fillLoop w h sv fl (fuel + 1) ((cx, cy) :: rest) vis data =
      fillLoop w h sv fl fuel rest vis data := by
  simp only [fillLoop]
  rw [if_pos hb]

theorem fillLoop_cons_vis (w h : ℕ) (sv fl : RGBA) (fuel : ℕ) (cx cy : ℤ)
    (rest : List (ℤ × ℤ)) (vis : Finset (ℕ × ℕ)) (data : Buffer)
    (hb : ¬ (cx < 0 ∨ (w : ℤ) ≤ cx ∨ cy < 0 ∨ (h : ℤ) ≤ cy))
    (hv : (cx.toNat, cy.toNat) ∈ vis) :
    fillLoop w h sv fl (fuel + 1) ((cx, cy) :: rest) vis data =
      fillLoop w h sv fl fuel rest vis data := by
  simp only [fillLoop]
  rw [if_neg hb, if_pos hv]

theorem fillLoop_cons_match (w h : ℕ) (sv fl : RGBA) (fuel : ℕ) (cx cy : ℤ)
    (rest : List (ℤ × ℤ)) (vis : Finset (ℕ × ℕ)) (data : Buffer)
    (hb : ¬ (cx < 0 ∨ (w : ℤ) ≤ cx ∨ cy < 0 ∨ (h : ℤ) ≤ cy))
    (hv : (cx.toNat, cy.toNat) ∉ vis)
    (hm : matchTol (data (cx.toNat, cy.toNat)) sv = true) :
    fillLoop w h sv fl (fuel + 1) ((cx, cy) :: rest) vis data =
      fillLoop w h sv fl fuel
        ((cx, cy - 1) :: (cx, cy + 1) :: (cx - 1, cy) :: (cx + 1, cy) :: rest)
        (insert (cx.toNat, cy.toNat) vis)
        (Function.update data (cx.toNat, cy.toNat) fl) := by
  simp only [fillLoop]
  rw [if_neg hb, if_neg hv, if_pos hm]

theorem fillLoop_cons_nomatch (w h : ℕ) (sv fl : RGBA) (fuel : ℕ) (cx cy : ℤ)
    (rest : List (ℤ × ℤ)) (vis : Finset (ℕ × ℕ)) (data : Buffer)
    (hb : ¬ (cx < 0 ∨ (w : ℤ) ≤ cx ∨ cy < 0 ∨ (h : ℤ) ≤ cy))
    (hv : (cx.toNat, cy.toNat) ∉ vis)
    (hm : ¬ matchTol (data (cx.toNat, cy.toNat)) sv = true) :
    fillLoop w h sv fl (fuel + 1) ((cx, cy) :: rest) vis data =
      fillLoop w h sv fl fuel rest (insert (cx.toNat, cy.toNat) vis) data := by
  simp only [fillLoop]
  rw [if_neg hb, if_neg hv, if_neg hm]

/-- The loop preserves LoopInv and, given fuel at least the potential
(stack length plus five per unvisited grid pixel), drains the stack: the
invariant holds of the result with an empty stack. -/
theorem fillLoop_inv (w h : ℕ) (orig : Buffer) (sv fl : RGBA) (sZ : ℤ × ℤ)
    (hsZ : inBoundsZ w h sZ) :
    ∀ (fuel : ℕ) (stack : List (ℤ × ℤ)) (vis : Finset (ℕ × ℕ)) (data : Buffer),
      LoopInv w h orig sv fl sZ stack vis data →
      stack.length + 5 * (w * h - vis.card) ≤ fuel →
      LoopInv w h orig sv fl sZ []
        (fillLoop w h sv fl fuel stack vis data).2
        (fillLoop w h sv fl fuel stack vis data).1 := by
  intro fuel
  induction fuel with
  | zero =>
    intro stack vis data hinv hfuel
    have hnil : stack = [] := by
      cases stack with
      | nil => rfl
      | cons a t => simp at hfuel
    subst hnil
    rw [fillLoop_nil]
    exact hinv
  | succ fuel ih =>
    intro stack vis data hinv hfuel
    obtain ⟨hvb, hde, hss, hvs, hfr, hsi⟩ := hinv
    cases stack with
    | nil =>
      rw [fillLoop_nil]
      exact ⟨hvb, hde, hss, hvs, hfr, hsi⟩
    | cons q0 rest =>
      obtain ⟨cx, cy⟩ := q0
      by_cases hb : cx < 0 ∨ (w : ℤ) ≤ cx ∨ cy < 0 ∨ (h : ℤ) ≤ cy
      · -- the popped entry is out of bounds and is dropped
        have hnb : ¬ inBoundsZ w h (cx, cy) :=
          (not_inBoundsZ_iff w h (cx, cy)).mp hb
        rw [fillLoop_cons_oob w h sv fl fuel cx cy rest vis data hb]
        refine ih rest vis data ⟨hvb, hde, ?_, hvs, ?_, ?_⟩ ?_
        · exact fun q hq => hss q (List.mem_cons_of_mem _ hq)
        · intro p hp hm q hq
          rcases hfr p hp hm q hq with h1 | h2 | h3
          · rcases List.mem_cons.mp h1 with rfl | h1
            · exact Or.inr (Or.inl hnb)
            · exact Or.inl h1
          · exact Or.inr (Or.inl h2)
          · exact Or.inr (Or.inr h3)
        · rcases hsi with h1 | h2
          · rcases List.mem_cons.mp h1 with rfl | h1
            · exact absurd hsZ hnb
            · exact Or.inl h1
          · exact Or.inr h2
        · simp only [List.length_cons] at hfuel
          omega
      · have hin : inBoundsZ w h (cx, cy) := by
          unfold inBoundsZ
          push_neg at hb
          exact ⟨by omega, by omega, by omega, by omega⟩
        by_cases hv : (cx.toNat, cy.toNat) ∈ vis
        · -- the popped entry was already visited and is dropped
          rw [fillLoop_cons_vis w h sv fl fuel cx cy rest vis data hb hv]
          refine ih rest vis data ⟨hvb, hde, ?_, hvs, ?_, ?_⟩ ?_
          · exact fun q hq => hss q (List.mem_cons_of_mem _ hq)
          · intro p hp hm q hq
            rcases hfr p hp hm q hq with h1 | h2 | h3
            · rcases List.mem_cons.mp h1 with rfl | h1
              · exact Or.inr (Or.inr hv)
              · exact Or.inl h1
            · exact Or.inr (Or.inl h2)
            · exact Or.inr (Or.inr h3)
          · rcases hsi with h1 | h2
            · rcases List.mem_cons.mp h1 with rfl | h1
              · exact Or.inr hv
              · exact Or.inl h1
            · exact Or.inr h2
          · simp only [List.length_cons] at hfuel
            omega
        · have hdp : data (cx.toNat, cy.toNat) = orig (cx.toNat, cy.toNat) := by
            rw [hde (cx.toNat, cy.toNat), if_neg]
            rintro ⟨hpv, -⟩
            exact hv hpv
          have hpin : inBounds w h (cx.toNat, cy.toNat) := inBounds_toPix hin
          have hx0 : 0 ≤ cx := hin.1
          have hy0 : 0 ≤ cy := hin.2.2.1
          have hsub : vis ⊆ grid w h :=
            fun r hr => (mem_grid w h r).mpr (hvb r hr)
          have hcard : vis.card < w * h := by
            have h1 : vis.card < (grid w h).card := by
              refine Finset.card_lt_card ⟨hsub, fun hcon => ?_⟩
              exact hv (hcon ((mem_grid w h _).mpr hpin))
            have h2 : (grid w h).card = w * h := by
              unfold grid
              simp
            omega
          by_cases hm : matchTol (data (cx.toNat, cy.toNat)) sv = true
          · -- the popped pixel matches: overwrite it and push its neighbours
            have hmo : matchTol (orig (cx.toNat, cy.toNat)) sv = true := by
              rw [← hdp]
              exact hm
            have hreach : Reach w h orig sv (toPix sZ) (cx.toNat, cy.toNat) :=
              hss (cx, cy) (List.mem_cons_self _ _) hin hmo
            rw [fillLoop_cons_match w h sv fl fuel cx cy rest vis data hb hv hm]
            refine ih _ _ _ ⟨?_, ?_, ?_, ?_, ?_, ?_⟩ ?_
            · intro r hr
              rcases Finset.mem_insert.mp hr with rfl | hr
              · exact hpin
              · exact hvb r hr
            · intro r
              rw [Function.update_apply]
              by_cases hr : r = (cx.toNat, cy.toNat)
              · subst hr
                rw [if_pos rfl,
                  if_pos ⟨Finset.mem_insert_self _ _, hmo⟩]
              · have hiff : (r ∈ insert (cx.toNat, cy.toNat) vis ∧
                    matchTol (orig r) sv = true) ↔
                    (r ∈ vis ∧ matchTol (orig r) sv = true) := by
                  simp [Finset.mem_insert, hr]
                rw [if_neg hr, hde r]
                exact (if_congr hiff rfl rfl).symm
            · intro q hq hqin hqm
              simp only [List.mem_cons] at hq
              rcases hq with rfl | rfl | rfl | rfl | hq
              · refine Reach.step hreach ?_ (inBounds_toPix hqin) hqm
                have hcy1 : 0 ≤ cy - 1 := hqin.2.2.1
                refine Or.inr (Or.inr (Or.inr ⟨?_, ?_⟩))
                · show cy.toNat = (cy - 1).toNat + 1
                  omega
                · rfl
              · refine Reach.step hreach ?_ (inBounds_toPix hqin) hqm
                refine Or.inr (Or.inr (Or.inl ⟨?_, ?_⟩))
                · show (cy + 1).toNat = cy.toNat + 1
                  omega
                · rfl
              · refine Reach.step hreach ?_ (inBounds_toPix hqin) hqm
                have hcx1 : 0 ≤ cx - 1 := hqin.1
                refine Or.inr (Or.inl ⟨?_, ?_⟩)
                · show cx.toNat = (cx - 1).toNat + 1
                  omega
                · rfl
              · refine Reach.step hreach ?_ (inBounds_toPix hqin) hqm
                refine Or.inl ⟨?_, ?_⟩
                · show (cx + 1).toNat = cx.toNat + 1
                  omega
                · rfl
              · exact hss q (List.mem_cons_of_mem _ hq) hqin hqm
            · intro r hr hrm
              rcases Finset.mem_insert.mp hr with rfl | hr
              · exact hreach
              · exact hvs r hr hrm
            · intro r hr hrm q hq
              rcases Finset.mem_insert.mp hr with rfl | hr
              · rw [nbrs_toPix cx cy hx0 hy0] at hq
                simp only [List.mem_cons, List.not_mem_nil, or_false] at hq
                rcases hq with rfl | rfl | rfl | rfl
                · exact Or.inl (by simp)
                · exact Or.inl (by simp)
                · exact Or.inl (by simp)
                · exact Or.inl (by simp)
              · rcases hfr r hr hrm q hq with h1 | h2 | h3
                · rcases List.mem_cons.mp h1 with rfl | h1
                  · exact Or.inr (Or.inr (Finset.mem_insert_self _ _))
                  · exact Or.inl (by simp [h1])
                · exact Or.inr (Or.inl h2)
                · exact Or.inr (Or.inr (Finset.mem_insert_of_mem h3))
            · rcases hsi with h1 | h2
              · rcases List.mem_cons.mp h1 with heq | h1
                · rw [heq]
                  exact Or.inr (Finset.mem_insert_self _ _)
                · exact Or.inl (by simp [h1])
              · exact Or.inr (Finset.mem_insert_of_mem h2)
            · rw [Finset.card_insert_of_not_mem hv]
              simp only [List.length_cons] at hfuel ⊢
              omega
          · -- the popped pixel does not match: mark it visited and drop it
            have hmo : ¬ matchTol (orig (cx.toNat, cy.toNat)) sv = true := by
              rw [← hdp]
              exact hm
            rw [fillLoop_cons_nomatch w h sv fl fuel cx cy rest vis data hb hv hm]
            refine ih _ _ _ ⟨?_, ?_, ?_, ?_, ?_, ?_⟩ ?_
            · intro r hr
              rcases Finset.mem_insert.mp hr with rfl | hr
              · exact hpin
              · exact hvb r hr
            · intro r
              by_cases hr : r = (cx.toNat, cy.toNat)
              · subst hr
                have hna : ¬ ((cx.toNat, cy.toNat) ∈ vis ∧
                    matchTol (orig (cx.toNat, cy.toNat)) sv = true) :=
                  fun hc => hv hc.1
                have hnb2 : ¬ ((cx.toNat, cy.toNat) ∈
                      insert (cx.toNat, cy.toNat) vis ∧
                    matchTol (orig (cx.toNat, cy.toNat)) sv = true) :=
                  fun hc => hmo hc.2
                rw [hde _, if_neg hna, if_neg hnb2]
              · have hiff : (r ∈ insert (cx.toNat, cy.toNat) vis ∧
                    matchTol (orig r) sv = true) ↔
                    (r ∈ vis ∧ matchTol (orig r) sv = true) := by
                  simp [Finset.mem_insert, hr]
                rw [hde r]
                exact (if_congr hiff rfl rfl).symm
            · exact fun q hq => hss q (List.mem_cons_of_mem _ hq)
            · intro r hr hrm
              rcases Finset.mem_insert.mp hr with rfl | hr
              · exact absurd hrm hmo
              · exact hvs r hr hrm
            · intro r hr hrm q hq
              rcases Finset.mem_insert.mp hr with rfl | hr
              · exact absurd hrm hmo
              · rcases hfr r hr hrm q hq with h1 | h2 | h3
                · rcases List.mem_cons.mp h1 with rfl | h1
                  · exact Or.inr (Or.inr (Finset.mem_insert_self _ _))
                  · exact Or.inl h1
                · exact Or.inr (Or.inl h2)
                · exact Or.inr (Or.inr (Finset.mem_insert_of_mem h3))
            · rcases hsi with h1 | h2
              · rcases List.mem_cons.mp h1 with heq | h1
                · rw [heq]
                  exact Or.inr (Finset.mem_insert_self _ _)
                · exact Or.inl h1
              · exact Or.inr (Finset.mem_insert_of_mem h2)
            · rw [Finset.card_insert_of_not_mem hv]
              simp only [List.length_cons] at hfuel ⊢
              omega

/-- Once the stack is drained, every pixel of the region is visited and
matches the seed. -/
theorem reach_mem_of_loopInv (w h : ℕ) (orig : Buffer) (sv fl : RGBA)
    (sZ : ℤ × ℤ) (vis : Finset (ℕ × ℕ)) (data : Buffer)
    (hF : LoopInv w h orig sv fl sZ [] vis data) :
    ∀ p, Reach w h orig sv (toPix sZ) p →
      p ∈ vis ∧ matchTol (orig p) sv = true := by
  intro p hr
  induction hr with
  | refl hb hm =>
    refine ⟨?_, hm⟩
    rcases hF.seedIn with hs | hs
    · exact absurd hs (List.not_mem_nil _)
    · exact hs
  | @step p1 q1 hr1 hadj hqin hqm ih =>
    refine ⟨?_, hqm⟩
    obtain ⟨hpv, hpm⟩ := ih
    obtain ⟨qZ, hqZmem, hqZin, hqZeq⟩ := adjacent_nbrs w h p1 q1 hadj hqin
    rcases hF.frontier p1 hpv hpm qZ hqZmem with h1 | h2 | h3
    · exact absurd h1 (List.not_mem_nil _)
    · exact absurd hqZin h2
    · rw [← hqZeq]
      exact h3

/-- C6 amended: for every flood fill on an in-bounds seed whose pixel does
not already equal the fill RGBA exactly (so the early return of line 218
does not fire; that case is the no-op of C5), a pixel is overwritten with
the fill RGBA if and only if it lies in the 4-connected region of pixels
reachable from the seed through pixels whose every RGBA channel differs from
the seed pixel original value by at most FILL_TOLERANCE: the resulting
buffer holds the fill RGBA on the region and the original value elsewhere,
so in particular a pixel differing from the seed by more than the tolerance
in some channel is never overwritten. -/
theorem C6_fill_region (w h : ℕ) (orig : Buffer) (sx sy : ℚ)
    (color : String) (opacity : ℚ)
    (hin : inBoundsZ w h (⌊sx⌋, ⌊sy⌋))
    (hne : ¬ seedMatchesFill (orig ((⌊sx⌋).toNat, (⌊sy⌋).toNat))
      (fillRGBA color opacity)) :
    ∃ d, floodFill w h orig sx sy color opacity = some d ∧
      (∀ p, Reach w h orig (orig ((⌊sx⌋).toNat, (⌊sy⌋).toNat))
        ((⌊sx⌋).toNat, (⌊sy⌋).toNat) p → d p = fillRGBA color opacity) ∧
      (∀ p, ¬ Reach w h orig (orig ((⌊sx⌋).toNat, (⌊sy⌋).toNat))
        ((⌊sx⌋).toNat, (⌊sy⌋).toNat) p → d p = orig p) := by
  have hpix := flat_seed_eq w h ⌊sx⌋ ⌊sy⌋ hin
  have hsome : floodFill w h orig sx sy color opacity =
      some (fillLoop w h (orig ((⌊sx⌋).toNat, (⌊sy⌋).toNat))
        (fillRGBA color opacity) (5 * w * h + 1) [(⌊sx⌋, ⌊sy⌋)] ∅ orig).1 := by
    simp only [floodFill]
    rw [if_neg (fun hc => hne (by rw [← hpix]; exact hc.2)), hpix]
  have hinit : LoopInv w h orig (orig ((⌊sx⌋).toNat, (⌊sy⌋).toNat))
      (fillRGBA color opacity) (⌊sx⌋, ⌊sy⌋) [(⌊sx⌋, ⌊sy⌋)] ∅ orig := by
    refine ⟨?_, ?_, ?_, ?_, ?_, ?_⟩
    · intro p hp
      exact absurd hp (Finset.not_mem_empty p)
    · intro p
      rw [if_neg (fun hc => Finset.not_mem_empty p hc.1)]
    · intro q hq hqin hqm
      have hq0 : q = (⌊sx⌋, ⌊sy⌋) := by simpa using hq
      subst hq0
      exact Reach.refl (inBounds_toPix hqin) hqm
    · intro p hp
      exact absurd hp (Finset.not_mem_empty p)
    · intro p hp _
      exact absurd hp (Finset.not_mem_empty p)
    · exact Or.inl (by simp)
  have hfuel : ([(⌊sx⌋, ⌊sy⌋)] : List (ℤ × ℤ)).length +
      5 * (w * h - (∅ : Finset (ℕ × ℕ)).card) ≤ 5 * w * h + 1 := by
    simp only [List.length_singleton, Finset.card_empty, Nat.sub_zero]
    have hassoc : 5 * w * h = 5 * (w * h) := Nat.mul_assoc 5 w h
    omega
  have hfin := fillLoop_inv w h orig (orig ((⌊sx⌋).toNat, (⌊sy⌋).toNat))
    (fillRGBA color opacity) (⌊sx⌋, ⌊sy⌋) hin (5 * w * h + 1)
    [(⌊sx⌋, ⌊sy⌋)] ∅ orig hinit hfuel
  refine ⟨_, hsome, ?_, ?_⟩
  · intro p hp
    have hm := reach_mem_of_loopInv w h orig _ _ (⌊sx⌋, ⌊sy⌋) _ _ hfin p hp
    rw [hfin.dataEq p, if_pos hm]
  · intro p hp
    rw [hfin.dataEq p, if_neg]
    rintro ⟨hpv, hpm⟩
    exact hp (hfin.visSound p hpv hpm)

/-- Buffer for the C6 counterexample: the seed pixel is gray 10, its right
neighbour gray 30 (within the tolerance of 40), everything else clear. -/
def cexBuf : Buffer := fun p =>
  if p = (0, 0) then ⟨10, 10, 10, 255⟩
  else if p = (1, 0) then ⟨30, 30, 30, 255⟩ else transparent

/-- A 2 by 1 editor state holding cexBuf on its single layer. -/
def cexState : EditorState := ⟨2, 1, fun _ => cexBuf, [], [], false, false⟩

/-- C6 counterexample to the claim as stated: clicking fill with color
0a0a0a at opacity 1 on the seed (0,0), whose pixel equals the fill RGBA
exactly, takes the early return, so the neighbour (1,0) keeps its value 30
gray and is not overwritten with the fill RGBA even though it lies in the
4-connected tolerance region of the seed. -/
theorem C6_counterexample :
    (fillClick cexState 0 0 0 "#0a0a0a" 1).buffers 0 (1, 0) =
      ⟨30, 30, 30, 255⟩ ∧
    fillRGBA "#0a0a0a" 1 = ⟨10, 10, 10, 255⟩ ∧
    (⟨30, 30, 30, 255⟩ : RGBA) ≠ ⟨10, 10, 10, 255⟩ ∧
    Reach 2 1 cexBuf (cexBuf (0, 0)) (0, 0) (1, 0) := by
  have hfill : fillRGBA "#0a0a0a" 1 = ⟨10, 10, 10, 255⟩ := by
    have hx : hexToRgb "#0a0a0a" = (10, 10, 10) := rfl
    have hop : ((1 : ℚ) * 255) = ((255 : ℤ) : ℚ) := by norm_num
    unfold fillRGBA
    rw [hx, hop, Int.floor_intCast]
    rfl
  have her : earlyReturn 2 1 cexBuf ⌊(0 : ℚ)⌋ ⌊(0 : ℚ)⌋
      (fillRGBA "#0a0a0a" 1) := by
    refine ⟨by decide, ?_⟩
    rw [hfill]
    decide
  have hnone : floodFill 2 1 cexBuf 0 0 "#0a0a0a" 1 = none := by
    simp only [floodFill]
    rw [if_pos her]
  have hclick : fillClick cexState 0 0 0 "#0a0a0a" 1 = cexState := by
    unfold fillClick
    rw [show floodFill cexState.width cexState.height (cexState.buffers 0)
      0 0 "#0a0a0a" 1 = none from hnone]
  refine ⟨by rw [hclick]; rfl, hfill, by decide, ?_⟩
  refine Reach.step (Reach.refl (by decide) (matchTol_self _)) ?_ (by decide) ?_
  · exact Or.inl ⟨rfl, rfl⟩
  · decide

/-- Witness for C6_fill_region: on a 1 by 1 transparent buffer, filling
with ff0000 at opacity 1 satisfies both hypotheses and yields a buffer that
is the fill RGBA on the region and unchanged elsewhere. -/
theorem C6_witness :
    inBoundsZ 1 1 (⌊(0 : ℚ)⌋, ⌊(0 : ℚ)⌋) ∧
    ¬ seedMatchesFill
      (constBuf transparent ((⌊(0 : ℚ)⌋).toNat, (⌊(0 : ℚ)⌋).toNat))
      (fillRGBA "#ff0000" 1) ∧
    ∃ d, floodFill 1 1 (constBuf transparent) 0 0 "#ff0000" 1 = some d ∧
      (∀ p, Reach 1 1 (constBuf transparent)
        (constBuf transparent ((⌊(0 : ℚ)⌋).toNat, (⌊(0 : ℚ)⌋).toNat))
        ((⌊(0 : ℚ)⌋).toNat, (⌊(0 : ℚ)⌋).toNat) p → d p = fillRGBA "#ff0000" 1) ∧
      (∀ p, ¬ Reach 1 1 (constBuf transparent)
        (constBuf transparent ((⌊(0 : ℚ)⌋).toNat, (⌊(0 : ℚ)⌋).toNat))
        ((⌊(0 : ℚ)⌋).toNat, (⌊(0 : ℚ)⌋).toNat) p →
        d p = constBuf transparent p) := by
  have hfill : fillRGBA "#ff0000" 1 = ⟨255, 0, 0, 255⟩ := by
    have hx : hexToRgb "#ff0000" = (255, 0, 0) := rfl
    have hop : ((1 : ℚ) * 255) = ((255 : ℤ) : ℚ) := by norm_num
    unfold fillRGBA
    rw [hx, hop, Int.floor_intCast]
    rfl
  have h1 : inBoundsZ 1 1 (⌊(0 : ℚ)⌋, ⌊(0 : ℚ)⌋) := by decide
  have h2 : ¬ seedMatchesFill
      (constBuf transparent ((⌊(0 : ℚ)⌋).toNat, (⌊(0 : ℚ)⌋).toNat))
      (fillRGBA "#ff0000" 1) := by
    rw [hfill]
    decide
  exact ⟨h1, h2, C6_fill_region 1 1 (constBuf transparent) 0 0 "#ff0000" 1 h1 h2⟩

/-- Witness for C10: a fill click at x = -1 on the fresh 2 by 2 state; its
flat linear index -1 is outside the array, so the push branch applies. -/
theorem C10_witness :
    ¬ inBoundsZ st0.width st0.height (⌊(-1 : ℚ)⌋, ⌊(0 : ℚ)⌋) ∧
    ((fillClick st0 0 (-1) 0 "#ff0000" 1).buffers = st0.buffers ∧
      (¬ earlyReturn st0.width st0.height (st0.buffers 0) ⌊(-1 : ℚ)⌋
          ⌊(0 : ℚ)⌋ (fillRGBA "#ff0000" 1) →
        (fillClick st0 0 (-1) 0 "#ff0000" 1).undoStack =
          (⟨0, st0.buffers 0, st0.buffers 0⟩ : HistoryStep) :: st0.undoStack ∧
        (fillClick st0 0 (-1) 0 "#ff0000" 1).canUndo = true) ∧
      (earlyReturn st0.width st0.height (st0.buffers 0) ⌊(-1 : ℚ)⌋
          ⌊(0 : ℚ)⌋ (fillRGBA "#ff0000" 1) →
        fillClick st0 0 (-1) 0 "#ff0000" 1 = st0)) := by
  have h : ¬ inBoundsZ st0.width st0.height (⌊(-1 : ℚ)⌋, ⌊(0 : ℚ)⌋) := by
    decide
  exact ⟨h, C10_oob_fill_pushes_degenerate_step st0 0 (-1) 0 "#ff0000" 1 h⟩

end StickerStudio
